import Mathlib

/- Verification of the OMS core: the publish/subscribe EventBus and the
   reactive state Store, shallowly embedded from the JavaScript source.
   JS listener objects and callback functions are identified by numeric
   ids; a callback's observable behaviour during a publish round is given
   by a `CbBeh` record (the `on` registrations it performs, in order, and
   whether it then raises).  JS Sets iterate in insertion order and are
   modelled by lists; JS Maps by association lists in insertion order. -/

namespace OMS

/-- A bus listener entry, src EventBus.on: the record with callback, once
and context.  Object identity of the JS listener record and its callback is
modelled by `id`; `context` only changes how the callback is bound, not
which listeners run, so it is not modelled. -/
structure Listener where
  id : Nat
  once : Bool
deriving DecidableEq

/-- The bus registry, src EventBus.constructor: `events`, a Map from event
name to the insertion-ordered Set of listeners. -/
abbrev Bus := List (String × List Listener)

/-- Lookup of `events.get(event)` / `events.has(event)` on the bus. -/
def findTopic : Bus → String → Option (List Listener)
  | [], _ => none
  | (t, ls) :: rest, e => if t = e then some ls else findTopic rest e

/-- The listeners currently registered for a topic (empty when absent). -/
def topicList (b : Bus) (e : String) : List Listener :=
  (findTopic b e).getD []

/-- src EventBus.on: create the topic's Set if absent (Map.set appends new
keys in insertion order), then add the listener; a freshly constructed
listener object is always a new Set element, so addition appends. -/
def onAdd : Bus → String → Listener → Bus
  | [], e, l => [(e, [l])]
  | (t, ls) :: rest, e, l =>
      if t = e then (t, ls ++ [l]) :: rest else (t, ls) :: onAdd rest e l

/-- src `Set.delete(listener)` on a topic's Set: remove the single element
with the given object identity (a JS Set holds no duplicates). -/
def removeListener : List Listener → Nat → List Listener
  | [], _ => []
  | l :: ls, i => if l.id = i then ls else l :: removeListener ls i

/-- The deletion `this.events.get(event).delete(listener)` performed inside
src EventBus.emit for a `once` listener. -/
def removeAt : Bus → String → Nat → Bus
  | [], _, _ => []
  | (t, ls) :: rest, e, i =>
      if t = e then (t, removeListener ls i) :: rest
      else (t, ls) :: removeAt rest e i

/-- Observable behaviour of one JS callback when invoked during a publish
round: the `on` registrations it performs, in order, and whether it then
raises an error. -/
structure CbBeh where
  regs : List (String × Listener)
  raises : Bool

/-- Apply a callback's registrations to the bus, in order. -/
def applyRegs (regs : List (String × Listener)) (b : Bus) : Bus :=
  regs.foldl (fun b' r => onAdd b' r.1 r.2) b

/-- One iteration of the `listeners.forEach` loop in src EventBus.emit: the
callback runs inside `try`; when it returns normally and the listener is
flagged `once`, the listener is deleted from the live topic Set; when it
raises, the error is caught and logged and the deletion is skipped, control
passing to the next snapshot entry.  The second component accumulates the
trace of invoked listener ids. -/
def emitStep (beh : Nat → CbBeh) (e : String) (st : Bus × List Nat)
    (l : Listener) : Bus × List Nat :=
  if (beh l.id).raises then
    (applyRegs (beh l.id).regs st.1, st.2 ++ [l.id])
  else if l.once then
    (removeAt (applyRegs (beh l.id).regs st.1) e l.id, st.2 ++ [l.id])
  else
    (applyRegs (beh l.id).regs st.1, st.2 ++ [l.id])

/-- src EventBus.emit: a no-op when the topic is absent; otherwise iterate
over a snapshot (`Array.from`) of the topic's current Set.  Returns the new
bus and the trace of invoked listener ids, in invocation order. -/
def emit (beh : Nat → CbBeh) (b : Bus) (e : String) : Bus × List Nat :=
  match findTopic b e with
  | none => (b, [])
  | some ls => ls.foldl (emitStep beh e) (b, [])

/-- src EventBus.getListenerCount: the topic Set's size, 0 when absent. -/
def getListenerCount (b : Bus) (e : String) : Nat :=
  (topicList b e).length

/-- A sequence of n publish calls on the same topic, src repeated
`emit(event, ...)`; the second component concatenates the traces. -/
def emitSeq (beh : Nat → CbBeh) (e : String) : Nat → Bus → Bus × List Nat
  | 0, b => (b, [])
  | n + 1, b =>
      let r := emit beh b e
      let rest := emitSeq beh e n r.1
      (rest.1, r.2 ++ rest.2)

/-- Number of listeners with a given id in a list (a JS Set holds at most
one occurrence of any listener object). -/
def countId (i : Nat) : List Listener → Nat
  | [] => 0
  | l :: ls => (if l.id = i then 1 else 0) + countId i ls

/-- A history entry, src Store.commit's addToHistory argument: the record
with type, name, payload, prevState, newState, timestamp.  The `type` field
is the constant string "mutation" on every commit and is not modelled
separately. -/
structure HistoryEntry (σ π : Type) where
  name : String
  payload : π
  prevState : σ
  newState : σ
  timestamp : Nat

/-- Error classes thrown by the Store, the spec's error taxonomy; the source
throws Error values whose message identifies the class, and `thrown` carries
a rethrown mutation or action error. -/
inductive StoreErr where
  | unknownMutation (name : String)
  | unknownAction (name : String)
  | thrown (msg : String)
deriving DecidableEq

/-- A registered mutation, src `(state, payload)` transform: mutates the
state record in place and may throw; modelled as a function from state and
payload to the updated state or the thrown error message. -/
abbrev MutFn (σ π : Type) := σ → π → Except String σ

/-- The Store's core data, src Store constructor fields except the action
and getter registries (actions are split off so action functions can be
typed over the data they act on; getters are not needed by any claim):
state, mutation registry, subscriber Set (callbacks as ids, insertion
order), isCommitting flag, history, maxHistorySize (default 50). -/
structure CoreStore (σ π : Type) where
  state : σ
  mutations : List (String × MutFn σ π)
  subscribers : List Nat
  isCommitting : Bool
  history : List (HistoryEntry σ π)
  maxHistorySize : Nat

/-- A registered action, src `(context, payload)` orchestration: the
context exposes the live state, a bound commit, a bound dispatch and the
getters view, all derivable from the core store; the action settles with a
result or rejects, and core-store updates it performed before rejecting
persist (no rollback).  Modelled as a function from the core store and
payload to the evolved core store and the settled result or error. -/
abbrev ActFn (σ π ρ : Type) := CoreStore σ π → π → CoreStore σ π × Except String ρ

/-- The full Store, src Store: the core data plus the action registry. -/
structure Store (σ π ρ : Type) extends CoreStore σ π where
  actions : List (String × ActFn σ π ρ)

/-- JS `arr.slice(-n)` as used to bound the history: the last n elements
when n is at least 1; JS `slice(-0)` is `slice(0)`, the whole array. -/
def sliceLast (l : List α) (n : Nat) : List α :=
  if n = 0 then l else l.drop (l.length - n)

/-- src Store.addToHistory: push the entry, then truncate to the last
maxHistorySize entries when the length exceeds the cap. -/
def addToHistory (st : CoreStore σ π) (entry : HistoryEntry σ π) :
    CoreStore σ π :=
  let h := st.history ++ [entry]
  { st with history :=
      if h.length > st.maxHistorySize then sliceLast h st.maxHistorySize
      else h }

/-- src Store.getHistory: `return [...this.history]`, a fresh shallow copy,
value-equal to the history (the aliasing discipline of the copy is analysed
separately on ArrayHeap below). -/
def getHistory (st : CoreStore σ π) : List (HistoryEntry σ π) :=
  st.history

/-- src Store.setMaxHistorySize: set the cap, then truncate to the last
`size` entries when the current length exceeds it. -/
def setMaxHistorySize (st : CoreStore σ π) (size : Nat) : CoreStore σ π :=
  if st.history.length > size then
    { st with maxHistorySize := size, history := sliceLast st.history size }
  else
    { st with maxHistorySize := size }

/-- One subscriber callback invocation inside src Store.notifySubscribers:
callbacks are identified by id and may raise, as given by subRaises. -/
def runSubscriber (subRaises : Nat → Bool) (c : Nat) : Except String Unit :=
  if subRaises c then Except.error "SubscriberError" else Except.ok ()

/-- src Store.notifySubscribers: invoke every subscriber in Set order
inside try/catch; a raising subscriber is caught and logged, and the
iteration continues identically in both arms.  Returns the trace of invoked
subscriber ids. -/
def notifySubscribers (subRaises : Nat → Bool) (subs : List Nat) : List Nat :=
  subs.foldl (fun tr c =>
    match runSubscriber subRaises c with
    | Except.ok _ => tr ++ [c]
    | Except.error _ => tr ++ [c]) []

/-- The store:mutation bus event payload, src commit's eventBus.emit. -/
structure MutEvent (σ π : Type) where
  name : String
  payload : π
  prevState : σ
  newState : σ

/-- The store:action bus event payload, src dispatch's eventBus.emit. -/
structure ActEvent (π ρ : Type) where
  name : String
  payload : π
  result : ρ

/-- Topic of the bus event emitted by src Store.commit (the spec calls it
store-mutation). -/
def storeMutationTopic : String := "store:mutation"

/-- Topic of the bus event emitted by src Store.dispatch (the spec calls it
store-action). -/
def storeActionTopic : String := "store:action"

/-- Everything observable from one src Store.commit call: the store after
the call, the error it threw (none on success), the subscriber invocation
trace, and the bus events it emitted, in that order. -/
structure CommitResult (σ π : Type) where
  store : CoreStore σ π
  err : Option StoreErr
  notified : List Nat
  events : List (String × MutEvent σ π)

/-- src Store.commit: throw UnknownMutation when the name is unregistered;
otherwise snapshot prevState, set isCommitting, run the mutation; on
success append the history entry, notify subscribers and emit
store:mutation; a mutation error is caught, logged and rethrown, with the
history append, subscriber notification and bus event all skipped; the
finally clause resets isCommitting.  `now` is the Date.now() timestamp. -/
def commit (subRaises : Nat → Bool) (st : CoreStore σ π)
    (mutationName : String) (payload : π) (now : Nat) : CommitResult σ π :=
  match st.mutations.lookup mutationName with
  | none => ⟨st, some (StoreErr.unknownMutation mutationName), [], []⟩
  | some mutation =>
    match mutation st.state payload with
    | Except.error msg =>
        ⟨{ st with isCommitting := false }, some (StoreErr.thrown msg), [], []⟩
    | Except.ok newState =>
        ⟨addToHistory { st with state := newState, isCommitting := false }
            ⟨mutationName, payload, st.state, newState, now⟩,
          none,
          notifySubscribers subRaises st.subscribers,
          [(storeMutationTopic, ⟨mutationName, payload, st.state, newState⟩)]⟩

/-- Everything observable from one src Store.dispatch call. -/
structure DispatchResult (σ π ρ : Type) where
  store : CoreStore σ π
  err : Option StoreErr
  result : Option ρ
  events : List (String × ActEvent π ρ)

/-- src Store.dispatch: throw UnknownAction when the name is unregistered;
otherwise run the action with its context and await it; on settlement emit
store:action carrying name, payload and result and return the result; a
rejection is caught, logged and rethrown with no event emitted, the
core-store updates already performed by the action persisting. -/
def dispatch (st : Store σ π ρ) (actionName : String) (payload : π) :
    DispatchResult σ π ρ :=
  match st.actions.lookup actionName with
  | none => ⟨st.toCoreStore, some (StoreErr.unknownAction actionName), none, []⟩
  | some action =>
    match action st.toCoreStore payload with
    | (st2, Except.error msg) => ⟨st2, some (StoreErr.thrown msg), none, []⟩
    | (st2, Except.ok result) =>
        ⟨st2, none, some result,
          [(storeActionTopic, ⟨actionName, payload, result⟩)]⟩

/-- src Store.subscribe: `this.subscribers.add(callback)`; a JS Set, so
adding a callback already present is a no-op. -/
def subscribe (st : CoreStore σ π) (c : Nat) : CoreStore σ π :=
  { st with subscribers :=
      if c ∈ st.subscribers then st.subscribers else st.subscribers ++ [c] }

/-- The unsubscribe closure returned by src Store.subscribe:
`this.subscribers.delete(callback)`. -/
def unsubscribe (st : CoreStore σ π) (c : Nat) : CoreStore σ π :=
  { st with subscribers := st.subscribers.erase c }

/-- A heap of JS arrays, for the aliasing analysis of getHistory:
addresses index the list of allocated arrays. -/
structure ArrayHeap (α : Type) where
  arrays : List (List α)

/-- Read the array at an address (empty when dangling). -/
def readArr (h : ArrayHeap α) (r : Nat) : List α :=
  (h.arrays[r]?).getD []

/-- Mutate the array at an address in place, replacing its contents
(covers appending, removing and reordering entries). -/
def writeArr (h : ArrayHeap α) (r : Nat) (v : List α) : ArrayHeap α :=
  ⟨h.arrays.set r v⟩

/-- Allocate a fresh array, returning its address. -/
def allocArr (h : ArrayHeap α) (v : List α) : ArrayHeap α × Nat :=
  (⟨h.arrays ++ [v]⟩, h.arrays.length)

/-- src Store.getHistory at the JS heap level: `[...this.history]`
allocates a fresh array holding the same entries as the array at
historyRef, and the fresh reference is returned to the caller. -/
def getHistoryCopy (h : ArrayHeap α) (historyRef : Nat) : ArrayHeap α × Nat :=
  allocArr h (readArr h historyRef)

/-- Fixture: every callback raises, registering nothing. -/
def raisingBeh : Nat → CbBeh := fun _ => ⟨[], true⟩

/-- Fixture: no callback raises or registers anything. -/
def quietBeh : Nat → CbBeh := fun _ => ⟨[], false⟩

/-- Fixture: a bus with a single once listener (id 7) on topic T. -/
def onceBus : Bus := [("T", [⟨7, true⟩])]

/-- Fixture: a bus with one listener (id 1) on topic T whose callback
registers a new listener (id 2) on T during the publish round. -/
def regBus : Bus := [("T", [⟨1, false⟩])]

/-- Fixture: callback 1 registers listener 2 on T; everyone else is quiet. -/
def regBeh : Nat → CbBeh :=
  fun k => if k = 1 then ⟨[("T", ⟨2, false⟩)], false⟩ else ⟨[], false⟩

/-- Fixture: no subscriber raises. -/
def noRaise : Nat → Bool := fun _ => false

/-- Fixture: subscriber 3 raises. -/
def raise3 : Nat → Bool := fun c => c == 3

/-- Fixture: a mutation incrementing a Nat state, ignoring its payload. -/
def incMut : MutFn Nat Unit := fun s _ => Except.ok (s + 1)

/-- Fixture: a mutation that always throws. -/
def badMut : MutFn Nat Unit := fun _ _ => Except.error "boom"

/-- Fixture: a fresh store with only the inc mutation registered. -/
def incStore : CoreStore Nat Unit :=
  ⟨0, [("inc", incMut)], [], false, [], 50⟩

/-- Fixture: a store with the inc mutation and one subscriber (id 3). -/
def subStore : CoreStore Nat Unit :=
  ⟨0, [("inc", incMut)], [3], false, [], 50⟩

/-- Fixture: a store with the throwing mutation and one subscriber. -/
def badStore : CoreStore Nat Unit :=
  ⟨0, [("bad", badMut)], [3], false, [], 50⟩

/-- Fixture: an action settling with payload + 1, not touching the store. -/
def succAct : ActFn Nat Nat Nat := fun s p => (s, Except.ok (p + 1))

/-- Fixture: an action that rejects. -/
def badAct : ActFn Nat Nat Nat := fun s _ => (s, Except.error "rejected")

/-- Fixture: a store with both actions registered. -/
def actStore : Store Nat Nat Nat :=
  ⟨⟨0, [], [], false, [], 50⟩, [("act", succAct), ("bad", badAct)]⟩

/-- Fixture history entries. -/
def e0 : HistoryEntry Nat Unit := ⟨"m", (), 0, 0, 0⟩

def e1 : HistoryEntry Nat Unit := ⟨"m", (), 0, 1, 1⟩

/-- Fixture: a heap with one allocated array at address 0. -/
def heap0 : ArrayHeap Nat := ⟨[[5, 6]]⟩

theorem emitStep_snd (beh : Nat → CbBeh) (e : String) (st : Bus × List Nat)
    (l : Listener) : (emitStep beh e st l).2 = st.2 ++ [l.id] := by
  unfold emitStep
  by_cases h1 : (beh l.id).raises <;> by_cases h2 : l.once <;> simp [h1, h2]

theorem foldl_emitStep_trace (beh : Nat → CbBeh) (e : String) :
    ∀ (ls : List Listener) (b : Bus) (tr : List Nat),
      (ls.foldl (emitStep beh e) (b, tr)).2 = tr ++ ls.map Listener.id := by
  intro ls
  induction ls with
  | nil => intro b tr; simp
  | cons l ls ih =>
    intro b tr
    rw [List.foldl_cons]
    have h : emitStep beh e (b, tr) l
        = ((emitStep beh e (b, tr) l).1, tr ++ [l.id]) := by
      have h2 := emitStep_snd beh e (b, tr) l
      exact Prod.ext rfl h2
    rw [h, ih]
    simp

/-- Trace characterization of emit: the listeners invoked are exactly the
pre-publish snapshot, in registration order. -/
theorem emit_trace (beh : Nat → CbBeh) (b : Bus) (e : String) :
    (emit beh b e).2 = (topicList b e).map Listener.id := by
  unfold emit topicList
  cases h : findTopic b e with
  | none => simp
  | some ls => simp [foldl_emitStep_trace]

theorem findTopic_on (b : Bus) (t : String) (l : Listener) (e : String) :
    findTopic (onAdd b t l) e =
      if t = e then some ((findTopic b e).getD [] ++ [l]) else findTopic b e := by
  induction b with
  | nil =>
    by_cases h : t = e <;> simp [onAdd, findTopic, h]
  | cons hd rest ih =>
    obtain ⟨t', ls⟩ := hd
    by_cases h1 : t' = t
    · subst h1
      by_cases h2 : t' = e <;> simp [onAdd, findTopic, h2]
    · by_cases h2 : t' = e
      · subst h2
        have : ¬ t = t' := fun hh => h1 hh.symm
        simp [onAdd, findTopic, h1, this]
      · simp [onAdd, findTopic, h1, h2, ih]

theorem topicList_on (b : Bus) (t : String) (l : Listener) (e : String) :
    topicList (onAdd b t l) e =
      if t = e then topicList b e ++ [l] else topicList b e := by
  unfold topicList
  rw [findTopic_on]
  by_cases h : t = e <;> simp [h]

theorem findTopic_removeAt (b : Bus) (t : String) (i : Nat) (e : String) :
    findTopic (removeAt b t i) e =
      if t = e then (findTopic b e).map (fun ls => removeListener ls i)
      else findTopic b e := by
  induction b with
  | nil =>
    by_cases h : t = e <;> simp [removeAt, findTopic, h]
  | cons hd rest ih =>
    obtain ⟨t', ls⟩ := hd
    by_cases h1 : t' = t
    · subst h1
      by_cases h2 : t' = e <;> simp [removeAt, findTopic, h2]
    · by_cases h2 : t' = e
      · subst h2
        have : ¬ t = t' := fun hh => h1 hh.symm
        simp [removeAt, findTopic, h1, this]
      · simp [removeAt, findTopic, h1, h2, ih]

theorem topicList_removeAt (b : Bus) (t : String) (i : Nat) (e : String) :
    topicList (removeAt b t i) e =
      if t = e then removeListener (topicList b e) i else topicList b e := by
  unfold topicList
  rw [findTopic_removeAt]
  by_cases h : t = e
  · cases hb : findTopic b e <;> simp [h, hb, removeListener]
  · simp [h]

theorem applyRegs_mem (x : Listener) (e : String) :
    ∀ (regs : List (String × Listener)) (b : Bus),
      x ∈ topicList b e → x ∈ topicList (applyRegs regs b) e := by
  intro regs
  induction regs with
  | nil => intro b hx; simpa [applyRegs] using hx
  | cons r regs ih =>
    intro b hx
    have hstep : x ∈ topicList (onAdd b r.1 r.2) e := by
      rw [topicList_on]
      by_cases h : r.1 = e <;> simp [h, hx]
    simpa [applyRegs, List.foldl_cons] using ih (onAdd b r.1 r.2) hstep

theorem applyRegs_mem_reg (x : Listener) (e : String) :
    ∀ (regs : List (String × Listener)) (b : Bus),
      (e, x) ∈ regs → x ∈ topicList (applyRegs regs b) e := by
  intro regs
  induction regs with
  | nil => intro b hx; cases hx
  | cons r regs ih =>
    intro b hx
    rw [List.mem_cons] at hx
    rcases hx with hx | hx
    · subst hx
      have hstep : x ∈ topicList (onAdd b e x) e := by
        rw [topicList_on]
        simp
      have heq : applyRegs ((e, x) :: regs) b = applyRegs regs (onAdd b e x) := by
        simp [applyRegs, List.foldl_cons]
      rw [heq]
      exact applyRegs_mem x e regs _ hstep
    · simpa [applyRegs, List.foldl_cons] using ih (onAdd b r.1 r.2) hx

theorem mem_removeListener (x : Listener) (i : Nat) :
    ∀ (ls : List Listener), x ∈ ls → x.id ≠ i → x ∈ removeListener ls i := by
  intro ls
  induction ls with
  | nil => intro hx; cases hx
  | cons l ls ih =>
    intro hx hne
    rw [List.mem_cons] at hx
    rcases hx with hx | hx
    · subst hx
      simp [removeListener, hne]
    · by_cases h : l.id = i
      · simp [removeListener, h, hx]
      · simp only [removeListener, h, if_false]
        exact List.mem_cons_of_mem l (ih hx hne)

theorem emitStep_mem (beh : Nat → CbBeh) (e : String) (x : Listener)
    (st : Bus × List Nat) (l : Listener)
    (hx : x ∈ topicList st.1 e) (hne : l.id ≠ x.id) :
    x ∈ topicList (emitStep beh e st l).1 e := by
  have hreg : x ∈ topicList (applyRegs (beh l.id).regs st.1) e :=
    applyRegs_mem x e _ st.1 hx
  unfold emitStep
  by_cases h1 : (beh l.id).raises
  · simpa [h1] using hreg
  · by_cases h2 : l.once
    · simp only [h1, h2, if_false, if_true, Bool.false_eq_true]
      rw [topicList_removeAt]
      simp only [if_pos rfl]
      exact mem_removeListener x l.id _ hreg (fun hh => hne (hh ▸ rfl))
    · simpa [h1, h2] using hreg

theorem foldl_emitStep_mem (beh : Nat → CbBeh) (e : String) (x : Listener) :
    ∀ (rs : List Listener) (b : Bus) (tr : List Nat),
      x ∈ topicList b e → (∀ l ∈ rs, l.id ≠ x.id) →
      x ∈ topicList ((rs.foldl (emitStep beh e) (b, tr)).1) e := by
  intro rs
  induction rs with
  | nil => intro b tr hx _; simpa using hx
  | cons l rs ih =>
    intro b tr hx hne
    rw [List.foldl_cons]
    have hstep : x ∈ topicList (emitStep beh e (b, tr) l).1 e :=
      emitStep_mem beh e x (b, tr) l hx (hne l (by simp))
    have h : emitStep beh e (b, tr) l
        = ((emitStep beh e (b, tr) l).1, (emitStep beh e (b, tr) l).2) := rfl
    rw [h]
    exact ih _ _ hstep (fun l' hl' => hne l' (by simp [hl']))

/-- A listener registered on topic e by a callback running in the round, and
whose id is not among the snapshot's ids, is in the topic's Set after the
round. -/
theorem mem_topicList_after_emit (beh : Nat → CbBeh) (b : Bus) (e : String)
    (li lj : Listener)
    (hmem : li ∈ topicList b e)
    (hreg : (e, lj) ∈ (beh li.id).regs)
    (hnew : lj.id ∉ (topicList b e).map Listener.id) :
    lj ∈ topicList (emit beh b e).1 e := by
  cases hf : findTopic b e with
  | none =>
    exfalso
    have : topicList b e = [] := by simp [topicList, hf]
    rw [this] at hmem
    cases hmem
  | some ls =>
    have hls : topicList b e = ls := by simp [topicList, hf]
    rw [hls] at hmem hnew
    obtain ⟨s1, s2, rfl⟩ := List.append_of_mem hmem
    have hemit : emit beh b e = (s1 ++ li :: s2).foldl (emitStep beh e) (b, []) := by
      simp [emit, hf]
    rw [hemit, List.foldl_append, List.foldl_cons]
    set st0 := (s1.foldl (emitStep beh e) (b, ([] : List Nat))) with hst0
    have hj1 : lj ∈ topicList (applyRegs (beh li.id).regs st0.1) e :=
      applyRegs_mem_reg lj e _ st0.1 hreg
    have hjne : lj.id ≠ li.id := by
      intro hh
      exact hnew (by rw [hh]; simp [List.mem_append])
    have hj2 : lj ∈ topicList (emitStep beh e st0 li).1 e := by
      unfold emitStep
      by_cases h1 : (beh li.id).raises
      · simpa [h1] using hj1
      · by_cases h2 : li.once
        · simp only [h1, h2, if_false, if_true, Bool.false_eq_true]
          rw [topicList_removeAt]
          simp only [if_pos rfl]
          exact mem_removeListener lj li.id _ hj1 hjne
        · simpa [h1, h2] using hj1
    have h : emitStep beh e st0 li
        = ((emitStep beh e st0 li).1, (emitStep beh e st0 li).2) := rfl
    rw [h]
    refine foldl_emitStep_mem beh e lj s2 _ _ hj2 ?_
    intro l' hl' hh
    refine hnew ?_
    rw [← hh]
    simp only [List.mem_map, List.mem_append, List.mem_cons]
    exact ⟨l', Or.inr (Or.inr hl'), rfl⟩

theorem countId_append (i : Nat) (a b : List Listener) :
    countId i (a ++ b) = countId i a + countId i b := by
  induction a with
  | nil => simp [countId]
  | cons l a ih => simp [countId, ih]; omega

theorem countId_removeListener_ne (i k : Nat) (hk : k ≠ i) :
    ∀ ls : List Listener, countId i (removeListener ls k) = countId i ls := by
  intro ls
  induction ls with
  | nil => simp [removeListener]
  | cons l ls ih =>
    by_cases h : l.id = k
    · have hne : l.id ≠ i := by rw [h]; exact hk
      simp [removeListener, h, countId, hne, hk]
    · simp [removeListener, h, countId, ih]

theorem countId_removeListener_self (i : Nat) :
    ∀ ls : List Listener, countId i (removeListener ls i) = countId i ls - 1 := by
  intro ls
  induction ls with
  | nil => simp [removeListener, countId]
  | cons l ls ih =>
    by_cases h : l.id = i
    · simp [removeListener, h, countId]
    · simp [removeListener, h, countId, ih]

theorem countId_eq_zero (i : Nat) :
    ∀ ls : List Listener, countId i ls = 0 ↔ ∀ l ∈ ls, l.id ≠ i := by
  intro ls
  induction ls with
  | nil => simp [countId]
  | cons l ls ih =>
    by_cases h : l.id = i <;> simp [countId, h, ih]

theorem count_map_id (i : Nat) :
    ∀ ls : List Listener, List.count i (ls.map Listener.id) = countId i ls := by
  intro ls
  induction ls with
  | nil => simp [countId]
  | cons l ls ih =>
    by_cases h : l.id = i
    · simp [countId, h, ih, List.count_cons]
      omega
    · simp [countId, h, ih, List.count_cons]

theorem applyRegs_countId (i : Nat) (e : String) :
    ∀ (regs : List (String × Listener)) (b : Bus),
      (∀ p ∈ regs, p.2.id ≠ i) →
      countId i (topicList (applyRegs regs b) e) = countId i (topicList b e) := by
  intro regs
  induction regs with
  | nil => intro b _; simp [applyRegs]
  | cons r regs ih =>
    intro b hr
    have hstep : countId i (topicList (onAdd b r.1 r.2) e)
        = countId i (topicList b e) := by
      rw [topicList_on]
      by_cases h : r.1 = e
      · simp [h, countId_append, countId, hr r (by simp)]
      · simp [h]
    have heq : applyRegs (r :: regs) b = applyRegs regs (onAdd b r.1 r.2) := by
      simp [applyRegs, List.foldl_cons]
    rw [heq, ih _ (fun p hp => hr p (by simp [hp])), hstep]

theorem emitStep_countId_ne (beh : Nat → CbBeh) (e : String) (i : Nat)
    (hregs : ∀ k, ∀ p ∈ (beh k).regs, p.2.id ≠ i)
    (st : Bus × List Nat) (l : Listener) (hl : l.id ≠ i) :
    countId i (topicList (emitStep beh e st l).1 e)
      = countId i (topicList st.1 e) := by
  have hreg : countId i (topicList (applyRegs (beh l.id).regs st.1) e)
      = countId i (topicList st.1 e) :=
    applyRegs_countId i e _ st.1 (hregs l.id)
  unfold emitStep
  by_cases h1 : (beh l.id).raises
  · simpa [h1] using hreg
  · by_cases h2 : l.once
    · simp only [h1, h2, if_false, if_true, Bool.false_eq_true]
      rw [topicList_removeAt, if_pos rfl, countId_removeListener_ne i l.id hl, hreg]
    · simpa [h1, h2] using hreg

theorem foldl_emitStep_count (beh : Nat → CbBeh) (e : String) (i : Nat)
    (hregs : ∀ k, ∀ p ∈ (beh k).regs, p.2.id ≠ i)
    (hraise : (beh i).raises = false) :
    ∀ (rs : List Listener) (b : Bus) (tr : List Nat),
      (∀ l ∈ rs, l.id = i → l.once = true) →
      countId i rs ≤ 1 →
      countId i (topicList b e) = countId i rs →
      countId i (topicList ((rs.foldl (emitStep beh e) (b, tr)).1) e) = 0 := by
  intro rs
  induction rs with
  | nil =>
    intro b tr _ _ hrel
    simpa [countId] using hrel
  | cons l rs ih =>
    intro b tr honce hle hrel
    rw [List.foldl_cons]
    have h : emitStep beh e (b, tr) l
        = ((emitStep beh e (b, tr) l).1, (emitStep beh e (b, tr) l).2) := rfl
    rw [h]
    by_cases hli : l.id = i
    · have honce_l : l.once = true := honce l (by simp) hli
      have hrs0 : countId i rs = 0 := by
        simp [countId, hli] at hle
        omega
      have hb1 : countId i (topicList b e) = 1 := by
        rw [hrel]
        simp [countId, hli, hrs0]
      have hstep : countId i (topicList (emitStep beh e (b, tr) l).1 e) = 0 := by
        have hraise_l : (beh l.id).raises = false := by rw [hli]; exact hraise
        unfold emitStep
        simp only [hraise_l, Bool.false_eq_true, if_false, honce_l, if_true]
        rw [topicList_removeAt, if_pos rfl, hli, countId_removeListener_self,
          applyRegs_countId i e _ b (hregs i), hb1]
      refine ih _ _ (fun l' hl' => honce l' (by simp [hl'])) (by omega) ?_
      rw [hstep, hrs0]
    · have hstep := emitStep_countId_ne beh e i hregs (b, tr) l hli
      refine ih _ _ (fun l' hl' => honce l' (by simp [hl'])) ?_ ?_
      · simp [countId, hli] at hle
        omega
      · rw [hstep, hrel]
        simp [countId, hli]

theorem emit_countId (beh : Nat → CbBeh) (e : String) (i : Nat)
    (hregs : ∀ k, ∀ p ∈ (beh k).regs, p.2.id ≠ i)
    (hraise : (beh i).raises = false) (b : Bus)
    (honce : ∀ l ∈ topicList b e, l.id = i → l.once = true)
    (hcount : countId i (topicList b e) ≤ 1) :
    countId i (topicList (emit beh b e).1 e) = 0 := by
  cases hf : findTopic b e with
  | none =>
    have h0 : topicList b e = [] := by simp [topicList, hf]
    have : emit beh b e = (b, []) := by simp [emit, hf]
    rw [this]
    simp [h0, countId]
  | some ls =>
    have hls : topicList b e = ls := by simp [topicList, hf]
    have hemit : emit beh b e = ls.foldl (emitStep beh e) (b, []) := by
      simp [emit, hf]
    rw [hemit]
    exact foldl_emitStep_count beh e i hregs hraise ls b []
      (hls ▸ honce) (hls ▸ hcount) (by rw [hls])

theorem emitSeq_countId_zero (beh : Nat → CbBeh) (e : String) (i : Nat)
    (hregs : ∀ k, ∀ p ∈ (beh k).regs, p.2.id ≠ i)
    (hraise : (beh i).raises = false) :
    ∀ (n : Nat) (b : Bus), countId i (topicList b e) = 0 →
      List.count i (emitSeq beh e n b).2 = 0 ∧
      countId i (topicList (emitSeq beh e n b).1 e) = 0 := by
  intro n
  induction n with
  | zero => intro b h; simpa [emitSeq] using h
  | succ n ih =>
    intro b h
    have honce : ∀ l ∈ topicList b e, l.id = i → l.once = true := by
      intro l hl hli
      exact absurd hli ((countId_eq_zero i _).mp h l hl)
    have h1 : countId i (topicList (emit beh b e).1 e) = 0 :=
      emit_countId beh e i hregs hraise b honce (by omega)
    have htr : List.count i (emit beh b e).2 = 0 := by
      rw [emit_trace, count_map_id]
      exact h
    obtain ⟨ha, hb⟩ := ih (emit beh b e).1 h1
    constructor
    · simp [emitSeq, List.count_append, htr, ha]
    · simpa [emitSeq] using hb

theorem notifySubscribers_all (subRaises : Nat → Bool) (subs : List Nat) :
    notifySubscribers subRaises subs = subs := by
  have h : ∀ (l tr : List Nat),
      l.foldl (fun tr c =>
        match runSubscriber subRaises c with
        | Except.ok _ => tr ++ [c]
        | Except.error _ => tr ++ [c]) tr = tr ++ l := by
    intro l
    induction l with
    | nil => intro tr; simp
    | cons c l ih =>
      intro tr
      rw [List.foldl_cons]
      cases hr : runSubscriber subRaises c <;> simp [hr, ih]
  simpa [notifySubscribers] using h subs []

theorem sliceLast_of_le (l : List α) (n : Nat) (h : l.length ≤ n) :
    sliceLast l n = l := by
  unfold sliceLast
  by_cases h0 : n = 0
  · simp [h0]
  · have hz : l.length - n = 0 := by omega
    simp [h0, hz]

theorem sliceLast_length (l : List α) (n : Nat) (hn : 1 ≤ n) :
    (sliceLast l n).length = min n l.length := by
  unfold sliceLast
  have h0 : ¬ n = 0 := by omega
  simp [h0]
  omega

theorem sliceLast_append_sliceLast (h rest : List α) (n : Nat) (hn : 1 ≤ n) :
    sliceLast (sliceLast h n ++ rest) n = sliceLast (h ++ rest) n := by
  by_cases hle : h.length ≤ n
  · rw [sliceLast_of_le h n hle]
  · have h0 : ¬ n = 0 := by omega
    unfold sliceLast
    simp only [h0, if_false]
    have e1 : (h.drop (h.length - n) ++ rest).length - n = rest.length := by
      simp
      omega
    have e2 : (h ++ rest).length - n = rest.length + (h.length - n) := by
      simp
      omega
    rw [e1, e2, List.drop_append_eq_append_drop, List.drop_append_eq_append_drop,
      List.drop_drop]
    have e3 : rest.length - (h.drop (h.length - n)).length = rest.length - n := by
      simp
      omega
    have e4 : rest.length + (h.length - n) - h.length = rest.length - n := by
      omega
    have e5 : h.length - n + rest.length = rest.length + (h.length - n) := by
      omega
    rw [e3, e4, e5]

theorem addToHistory_history (st : CoreStore σ π) (entry : HistoryEntry σ π) :
    (addToHistory st entry).history
      = sliceLast (st.history ++ [entry]) st.maxHistorySize := by
  show (if (st.history ++ [entry]).length > st.maxHistorySize
      then sliceLast (st.history ++ [entry]) st.maxHistorySize
      else st.history ++ [entry])
    = sliceLast (st.history ++ [entry]) st.maxHistorySize
  split
  next => rfl
  next hle => exact (sliceLast_of_le _ _ (by omega)).symm

theorem addToHistory_max (st : CoreStore σ π) (entry : HistoryEntry σ π) :
    (addToHistory st entry).maxHistorySize = st.maxHistorySize := by
  unfold addToHistory
  simp

theorem foldl_addToHistory (n : Nat) (hn : 1 ≤ n) :
    ∀ (es : List (HistoryEntry σ π)) (st : CoreStore σ π),
      st.maxHistorySize = n → st.history.length ≤ n →
      (es.foldl addToHistory st).history = sliceLast (st.history ++ es) n := by
  intro es
  induction es with
  | nil =>
    intro st hcap hlen
    show st.history = sliceLast (st.history ++ []) n
    rw [List.append_nil]
    exact (sliceLast_of_le _ _ hlen).symm
  | cons entry es ih =>
    intro st hcap hlen
    rw [List.foldl_cons]
    have hstep : (addToHistory st entry).history
        = sliceLast (st.history ++ [entry]) n := by
      rw [addToHistory_history st entry, hcap]
    have hmax : (addToHistory st entry).maxHistorySize = n := by
      rw [addToHistory_max, hcap]
    have hlen2 : (addToHistory st entry).history.length ≤ n := by
      rw [hstep, sliceLast_length _ _ hn]
      omega
    rw [ih _ hmax hlen2, hstep, sliceLast_append_sliceLast _ _ _ hn]
    have hl : (st.history ++ [entry]) ++ es = st.history ++ entry :: es := by
      simp
    rw [hl]

/-- C1 counterexample: a Store configured to capacity 0 via
setMaxHistorySize keeps a history of length 1 after one append, exceeding
the capacity — JS `slice(-0)` is `slice(0)` and returns the whole array, so
the buffer is unbounded at capacity 0, refuting the claim for every
configured capacity n. -/
theorem addToHistory_capacity_zero_unbounded :
    (setMaxHistorySize incStore 0).maxHistorySize = 0 ∧
    (addToHistory (setMaxHistorySize incStore 0) e0).history.length = 1 := by
  constructor <;> rfl

/-- C1 (amended to capacities n of at least 1): with the capacity
configured to n and the history within bounds, any sequence of appends
leaves getHistory equal to the last n of all entries in commit order —
after more than n appends from empty, exactly the n most recent — and the
length never exceeds n. -/
theorem history_bounded_and_suffix (st : CoreStore σ π) (n : Nat)
    (hn : 1 ≤ n) (hcap : st.maxHistorySize = n) (hlen : st.history.length ≤ n)
    (es : List (HistoryEntry σ π)) :
    getHistory (es.foldl addToHistory st) = sliceLast (st.history ++ es) n ∧
    (getHistory (es.foldl addToHistory st)).length ≤ n := by
  have h := foldl_addToHistory n hn es st hcap hlen
  refine ⟨h, ?_⟩
  unfold getHistory at h ⊢
  rw [h, sliceLast_length _ _ hn]
  omega

/-- Witness for C1 at capacity 1 and two appends. -/
theorem history_bounded_and_suffix_witness :
    getHistory ([e0, e1].foldl addToHistory (setMaxHistorySize incStore 1))
        = sliceLast ((setMaxHistorySize incStore 1).history ++ [e0, e1]) 1 ∧
    (getHistory
        ([e0, e1].foldl addToHistory (setMaxHistorySize incStore 1))).length
      ≤ 1 :=
  history_bounded_and_suffix (setMaxHistorySize incStore 1) 1 (by decide) rfl
    (by decide) [e0, e1]

/-- C2 counterexample: a once listener (id 7) whose callback raises is not
removed — the deletion sits after the callback call inside the try block —
so it stays counted by getListenerCount and is invoked again by the next
publish: two publishes invoke it twice. -/
theorem once_listener_raising_retained :
    List.count 7 (emitSeq raisingBeh "T" 2 onceBus).2 = 2 ∧
    getListenerCount (emit raisingBeh onceBus "T").1 "T" = 1 := by
  constructor <;> rfl

/-- C2 (amended: removal on non-raising invocation): for a once listener
(id i) whose callback does not raise, when no callback registers a listener
with id i, across any number of publishes on its topic the number of its
invocations plus its remaining registrations is at most 1 — it is invoked
at most once, and from the publish that invoked it onwards it is no longer
in the topic's Set.  When its callback raises, the source keeps it
registered (see the counterexample). -/
theorem once_listener_at_most_once (beh : Nat → CbBeh) (b : Bus) (e : String)
    (i : Nat)
    (hregs : ∀ k, ∀ p ∈ (beh k).regs, p.2.id ≠ i)
    (hraise : (beh i).raises = false)
    (honce : ∀ l ∈ topicList b e, l.id = i → l.once = true)
    (hcount : countId i (topicList b e) ≤ 1) (n : Nat) :
    List.count i (emitSeq beh e n b).2
      + countId i (topicList (emitSeq beh e n b).1 e) ≤ 1 := by
  cases n with
  | zero => simpa [emitSeq] using hcount
  | succ n =>
    have h1 : countId i (topicList (emit beh b e).1 e) = 0 :=
      emit_countId beh e i hregs hraise b honce hcount
    have htr : List.count i (emit beh b e).2 = countId i (topicList b e) := by
      rw [emit_trace, count_map_id]
    obtain ⟨ha, hb⟩ := emitSeq_countId_zero beh e i hregs hraise n
      (emit beh b e).1 h1
    simp only [emitSeq, List.count_append, htr, ha, hb]
    omega

/-- Witness for C2 with the quiet behaviour over three publishes. -/
theorem once_listener_at_most_once_witness :
    List.count 7 (emitSeq quietBeh "T" 3 onceBus).2
      + countId 7 (topicList (emitSeq quietBeh "T" 3 onceBus).1 "T") ≤ 1 :=
  once_listener_at_most_once quietBeh onceBus "T" 7
    (fun _ p hp => absurd hp (List.not_mem_nil p)) rfl (by decide) (by decide) 3

/-- C3: failure isolation.  On the bus, the publish round invokes exactly
the pre-publish snapshot of listeners in registration order whatever the
raise pattern of the callbacks (emit is total: the per-listener try/catch
means no listener error reaches the caller of publish).  On the store, a
successful commit notifies every subscriber in Set order whatever the
raise pattern of the subscribers, and its outcome stays error-free. -/
theorem failure_isolation_publish_and_commit (beh : Nat → CbBeh) (b : Bus)
    (e : String) (subRaises : Nat → Bool) (st : CoreStore σ π) (m : MutFn σ π)
    (name : String) (p : π) (now : Nat) (s2 : σ)
    (hm : st.mutations.lookup name = some m)
    (hs : m st.state p = Except.ok s2) :
    (emit beh b e).2 = (topicList b e).map Listener.id ∧
    (commit subRaises st name p now).notified = st.subscribers ∧
    (commit subRaises st name p now).err = none := by
  refine ⟨emit_trace beh b e, ?_, ?_⟩ <;>
    simp [commit, hm, hs, notifySubscribers_all]

/-- Witness for C3: every bus callback raises and the store's only
subscriber raises, yet the full snapshot is invoked and commit succeeds. -/
theorem failure_isolation_witness :
    (emit raisingBeh onceBus "T").2 = (topicList onceBus "T").map Listener.id ∧
    (commit raise3 subStore "inc" () 0).notified = subStore.subscribers ∧
    (commit raise3 subStore "inc" () 0).err = none :=
  failure_isolation_publish_and_commit raisingBeh onceBus "T" raise3 subStore
    incMut "inc" () 0 1 rfl rfl

/-- C4: the listeners invoked by a publish are exactly those registered for
the topic at the start of the publish, in registration order; a listener
registered on the topic during the round (with a fresh identity) is not
invoked in that round but is invoked by the next publish on the topic. -/
theorem emit_snapshot_registration (beh : Nat → CbBeh) (b : Bus) (e : String)
    (li lj : Listener)
    (hmem : li ∈ topicList b e)
    (hreg : (e, lj) ∈ (beh li.id).regs)
    (hnew : lj.id ∉ (topicList b e).map Listener.id) :
    (emit beh b e).2 = (topicList b e).map Listener.id ∧
    lj.id ∉ (emit beh b e).2 ∧
    lj.id ∈ (emit beh (emit beh b e).1 e).2 := by
  refine ⟨emit_trace beh b e, ?_, ?_⟩
  · rw [emit_trace]
    exact hnew
  · rw [emit_trace]
    exact List.mem_map_of_mem Listener.id
      (mem_topicList_after_emit beh b e li lj hmem hreg hnew)

/-- Witness for C4: listener 1's callback registers listener 2 mid-round. -/
theorem emit_snapshot_registration_witness :
    (emit regBeh regBus "T").2 = (topicList regBus "T").map Listener.id ∧
    (2 : Nat) ∉ (emit regBeh regBus "T").2 ∧
    (2 : Nat) ∈ (emit regBeh (emit regBeh regBus "T").1 "T").2 :=
  emit_snapshot_registration regBeh regBus "T" ⟨1, false⟩ ⟨2, false⟩
    (by decide) (by decide) (by decide)

/-- C5: a registered mutation that throws makes commit rethrow that same
error to its caller, with no history entry appended, no subscriber
notified and no bus event emitted. -/
theorem commit_mutation_error_propagates (subRaises : Nat → Bool)
    (st : CoreStore σ π) (m : MutFn σ π) (name : String) (p : π) (now : Nat)
    (msg : String)
    (hm : st.mutations.lookup name = some m)
    (he : m st.state p = Except.error msg) :
    (commit subRaises st name p now).err = some (StoreErr.thrown msg) ∧
    (commit subRaises st name p now).store.history = st.history ∧
    (commit subRaises st name p now).notified = [] ∧
    (commit subRaises st name p now).events = [] := by
  refine ⟨?_, ?_, ?_, ?_⟩ <;> simp [commit, hm, he]

/-- Witness for C5 with the always-throwing mutation. -/
theorem commit_mutation_error_propagates_witness :
    (commit noRaise badStore "bad" () 0).err
        = some (StoreErr.thrown "boom") ∧
    (commit noRaise badStore "bad" () 0).store.history = badStore.history ∧
    (commit noRaise badStore "bad" () 0).notified = [] ∧
    (commit noRaise badStore "bad" () 0).events = [] :=
  commit_mutation_error_propagates noRaise badStore badMut "bad" () 0 "boom"
    rfl rfl

/-- C6: committing an unregistered mutation name throws UnknownMutation and
leaves the whole store — state and history included — unchanged, with no
subscriber notified and no bus event emitted. -/
theorem commit_unknown_mutation (subRaises : Nat → Bool) (st : CoreStore σ π)
    (name : String) (p : π) (now : Nat)
    (hm : st.mutations.lookup name = none) :
    (commit subRaises st name p now).err
        = some (StoreErr.unknownMutation name) ∧
    (commit subRaises st name p now).store = st ∧
    (commit subRaises st name p now).notified = [] ∧
    (commit subRaises st name p now).events = [] := by
  refine ⟨?_, ?_, ?_, ?_⟩ <;> simp [commit, hm]

/-- Witness for C6. -/
theorem commit_unknown_mutation_witness :
    (commit noRaise incStore "unknownName" () 0).err
        = some (StoreErr.unknownMutation "unknownName") ∧
    (commit noRaise incStore "unknownName" () 0).store = incStore ∧
    (commit noRaise incStore "unknownName" () 0).notified = [] ∧
    (commit noRaise incStore "unknownName" () 0).events = [] :=
  commit_unknown_mutation noRaise incStore "unknownName" () 0 rfl

/-- C7: dispatch of a registered action publishes, after the action
settles, one store:action bus event carrying the name, payload and settled
result, and returns that result; a rejecting action has its error rethrown
to the caller of dispatch, with no event published. -/
theorem dispatch_publishes_and_propagates (st : Store σ π ρ)
    (a : ActFn σ π ρ) (name : String) (p : π)
    (hreg : st.actions.lookup name = some a) :
    (∀ st2 r, a st.toCoreStore p = (st2, Except.ok r) →
      (dispatch st name p).events = [(storeActionTopic, ⟨name, p, r⟩)] ∧
      (dispatch st name p).result = some r ∧
      (dispatch st name p).err = none ∧
      (dispatch st name p).store = st2) ∧
    (∀ st2 msg, a st.toCoreStore p = (st2, Except.error msg) →
      (dispatch st name p).err = some (StoreErr.thrown msg) ∧
      (dispatch st name p).events = [] ∧
      (dispatch st name p).store = st2) := by
  constructor
  · intro st2 r hr
    refine ⟨?_, ?_, ?_, ?_⟩ <;> simp [dispatch, hreg, hr]
  · intro st2 msg hr
    refine ⟨?_, ?_, ?_⟩ <;> simp [dispatch, hreg, hr]

/-- Witness for C7: a settling action and a rejecting action. -/
theorem dispatch_publishes_and_propagates_witness :
    ((dispatch actStore "act" 5).events
        = [(storeActionTopic, ⟨"act", 5, 6⟩)] ∧
      (dispatch actStore "act" 5).result = some 6) ∧
    (dispatch actStore "bad" 5).err = some (StoreErr.thrown "rejected") := by
  constructor
  · have h := (dispatch_publishes_and_propagates actStore succAct "act" 5
      rfl).1 actStore.toCoreStore 6 rfl
    exact ⟨h.1, h.2.1⟩
  · exact ((dispatch_publishes_and_propagates actStore badAct "bad" 5
      rfl).2 actStore.toCoreStore "rejected" rfl).1

/-- C8 counterexample: the increment mutation is pure, yet committing it
twice from the same starting state does not equal committing it once —
state 0 becomes 2, not 1 — so pure mutations are not idempotent under
commit. -/
theorem commit_not_idempotent :
    (commit noRaise
        (commit noRaise incStore "inc" () 0).store "inc" () 0).store.state
      ≠ (commit noRaise incStore "inc" () 0).store.state := by
  decide

/-- C8 (amended to determinism): commit's resulting state, thrown error and
subscriber trace do not depend on the timestamp — the only nondeterministic
input in the embedding, mutations being pure functions of state and
payload — so two commits of the same name and payload from the same
starting state yield the same resulting state; pure mutations are
deterministic, though not idempotent, under commit. -/
theorem commit_deterministic (subRaises : Nat → Bool) (st : CoreStore σ π)
    (name : String) (p : π) (t1 t2 : Nat) :
    (commit subRaises st name p t1).store.state
        = (commit subRaises st name p t2).store.state ∧
    (commit subRaises st name p t1).err = (commit subRaises st name p t2).err ∧
    (commit subRaises st name p t1).notified
        = (commit subRaises st name p t2).notified := by
  unfold commit
  cases hm : st.mutations.lookup name with
  | none => simp
  | some m =>
    cases hr : m st.state p with
    | error msg => simp [hr]
    | ok s2 => simp [hr, addToHistory]

/-- C9: subscribing a callback already in the subscriber Set is a no-op
(JS Set.add); a successful commit notifies it exactly once; one call of the
returned unsubscribe closure removes it from the Set entirely. -/
theorem subscribe_idempotent_unsubscribe_removes (subRaises : Nat → Bool)
    (st : CoreStore σ π) (c : Nat) (m : MutFn σ π) (name : String) (p : π)
    (now : Nat) (s2 : σ)
    (hc : c ∈ st.subscribers)
    (hcount : st.subscribers.count c ≤ 1)
    (hm : st.mutations.lookup name = some m)
    (hs : m st.state p = Except.ok s2) :
    subscribe st c = st ∧
    (commit subRaises st name p now).notified.count c = 1 ∧
    c ∉ (unsubscribe st c).subscribers := by
  refine ⟨?_, ?_, ?_⟩
  · unfold subscribe
    simp [hc]
  · have hnot : (commit subRaises st name p now).notified = st.subscribers := by
      simp [commit, hm, hs, notifySubscribers_all]
    rw [hnot]
    have hpos : 0 < st.subscribers.count c := List.count_pos_iff.mpr hc
    omega
  · show c ∉ st.subscribers.erase c
    intro hmem
    have h1 := List.count_erase_self c st.subscribers
    have hpos : 0 < (st.subscribers.erase c).count c :=
      List.count_pos_iff.mpr hmem
    omega

/-- Witness for C9 on the store with subscriber 3. -/
theorem subscribe_idempotent_unsubscribe_removes_witness :
    subscribe subStore 3 = subStore ∧
    (commit noRaise subStore "inc" () 0).notified.count 3 = 1 ∧
    3 ∉ (unsubscribe subStore 3).subscribers :=
  subscribe_idempotent_unsubscribe_removes noRaise subStore 3 incMut "inc"
    () 0 1 (by decide) (by decide) rfl rfl

/-- C10: getHistory returns a fresh copy — the returned reference differs
from the store's internal history reference, holds the same entries, and
however the caller mutates the returned array, the internal history read
afterwards is unchanged, so a subsequent getHistory returns the same
entries as before the copy was mutated. -/
theorem getHistory_fresh_copy (h : ArrayHeap α) (r : Nat)
    (hr : r < h.arrays.length) :
    (getHistoryCopy h r).2 ≠ r ∧
    readArr (getHistoryCopy h r).1 (getHistoryCopy h r).2 = readArr h r ∧
    ∀ v, readArr (writeArr (getHistoryCopy h r).1 (getHistoryCopy h r).2 v) r
        = readArr h r := by
  refine ⟨?_, ?_, ?_⟩
  · show h.arrays.length ≠ r
    omega
  · show readArr ⟨h.arrays ++ [readArr h r]⟩ h.arrays.length = readArr h r
    unfold readArr
    simp [List.getElem?_concat_length]
  · intro v
    show readArr ⟨(h.arrays ++ [readArr h r]).set h.arrays.length v⟩ r
        = readArr h r
    unfold readArr
    have hne : h.arrays.length ≠ r := by omega
    rw [List.getElem?_set_ne hne, List.getElem?_append_left hr]

/-- Witness for C10 on a one-array heap. -/
theorem getHistory_fresh_copy_witness :
    (getHistoryCopy heap0 0).2 ≠ 0 ∧
    readArr (getHistoryCopy heap0 0).1 (getHistoryCopy heap0 0).2
        = readArr heap0 0 ∧
    ∀ v, readArr (writeArr (getHistoryCopy heap0 0).1
        (getHistoryCopy heap0 0).2 v) 0 = readArr heap0 0 :=
  getHistory_fresh_copy heap0 0 (by decide)

end OMS
